import Mathlib

/-!
Verification of the hawkc specification against the hawkc sources.

Bytes are modelled as natural numbers (the values of C unsigned char);
byte strings (HawkcString values) are lists of bytes.  The fixed byte
strings used by the library are written as explicit ASCII code lists.

Buffer-size constants and struct layouts are taken from
src/hawkc/common.h and src/hawkc/hawkc.h.  The bodies of the library
functions (common.c, parser.c, authorization.c, www_authenticate.c,
base64.c, crypto_openssl.c) are not part of the source tree; where a
definition models one of those functions it is marked
`Modelled from the spec:` in its doc comment and follows the words of
spec.md.
-/

namespace Hawkc

/-- Constant BASE_BUFFER_SIZE from src/hawkc/common.h (static base string buffer). -/
def BASE_BUFFER_SIZE : Nat := 512

/-- Constant MAX_DYN_BASE_BUFFER_SIZE from src/hawkc/common.h (hard cap on dynamic allocation). -/
def MAX_DYN_BASE_BUFFER_SIZE : Nat := 2048

/-- Constant TS_BASE_BUFFER_SIZE from src/hawkc/common.h (timestamp base string buffer). -/
def TS_BASE_BUFFER_SIZE : Nat := 30

/-- Constant MAX_HMAC_BYTES from src/hawkc/hawkc.h. -/
def MAX_HMAC_BYTES : Nat := 32

/-- Constant MAX_HMAC_BYTES_B64 from src/hawkc/hawkc.h. -/
def MAX_HMAC_BYTES_B64 : Nat := 45

/-- Constant MAX_NONCE_BYTES from src/hawkc/hawkc.h. -/
def MAX_NONCE_BYTES : Nat := 6

/-- Constant MAX_NONCE_HEX_BYTES from src/hawkc/hawkc.h. -/
def MAX_NONCE_HEX_BYTES : Nat := 12

/-- Error codes, from the HawkcError enum in src/hawkc/hawkc.h. -/
inductive HawkcError where
  | HAWKC_OK
  | HAWKC_PARSE_ERROR
  | HAWKC_BAD_SCHEME_ERROR
  | HAWKC_TOKEN_VALIDATION_ERROR
  | HAWKC_ERROR_UNKNOWN_ALGORITHM
  | HAWKC_CRYPTO_ERROR
  | HAWKC_TIME_VALUE_ERROR
  | HAWKC_NO_MEM
  | HAWKC_REQUIRED_BUFFER_TOO_LARGE
  | HAWKC_ERROR
  | HAWKC_BASE64_ERROR
  | HAWKC_OVERFLOW_ERROR
deriving DecidableEq

/-- Struct AuthorizationHeader from src/hawkc/hawkc.h lines 121-131: the
Hawk request-header parameter bag.  HawkcString slices are byte lists,
ts is the signed time_t field. -/
structure AuthorizationHeader where
  id : List Nat
  mac : List Nat
  hash : List Nat
  nonce : List Nat
  ts : Int
  app : List Nat
  dlg : List Nat
  ext : List Nat
deriving DecidableEq

/-- Struct WwwAuthenticateHeader from src/hawkc/hawkc.h lines 138-141. -/
structure WwwAuthenticateHeader where
  ts : Int
  tsm : List Nat
deriving DecidableEq

/-- Struct HawkcAlgorithm from src/hawkc/common.h lines 21-23.  The C
struct declares exactly one member, `const char* name`; there is no
hmac identifier field and no MAC length field. -/
structure HawkcAlgorithm where
  name : List Nat
deriving DecidableEq

/-- Struct HawkcContext from src/hawkc/hawkc.h lines 160-186, restricted
to the fields the verified operations read (the allocator hooks and the
error slot are process-interaction state outside the shallow embedding). -/
structure HawkcContext where
  offset : Int
  algorithm : HawkcAlgorithm
  password : List Nat
  method : List Nat
  path : List Nat
  host : List Nat
  port : List Nat
  header_in : AuthorizationHeader
  header_out : AuthorizationHeader
  www_authenticate_header : WwwAuthenticateHeader
  nonce : List Nat
deriving DecidableEq

/-- ASCII bytes of the scheme token Hawk. -/
def hawkSchemeBytes : List Nat := [72, 97, 119, 107]

/-- ASCII bytes of the request base string tag hawk.1.header. -/
def headerTag : List Nat := [104, 97, 119, 107, 46, 49, 46, 104, 101, 97, 100, 101, 114]

/-- ASCII bytes of the timestamp base string tag hawk.1.ts. -/
def tsTag : List Nat := [104, 97, 119, 107, 46, 49, 46, 116, 115]

/-- ASCII bytes of the parameter key id. -/
def keyId : List Nat := [105, 100]

/-- ASCII bytes of the parameter key ts. -/
def keyTs : List Nat := [116, 115]

/-- ASCII bytes of the parameter key nonce. -/
def keyNonce : List Nat := [110, 111, 110, 99, 101]

/-- ASCII bytes of the parameter key mac. -/
def keyMac : List Nat := [109, 97, 99]

/-- ASCII bytes of the parameter key hash. -/
def keyHash : List Nat := [104, 97, 115, 104]

/-- ASCII bytes of the parameter key app. -/
def keyApp : List Nat := [97, 112, 112]

/-- ASCII bytes of the parameter key dlg. -/
def keyDlg : List Nat := [100, 108, 103]

/-- ASCII bytes of the parameter key ext. -/
def keyExt : List Nat := [101, 120, 116]

/-- ASCII bytes of the parameter key tsm. -/
def keyTsm : List Nat := [116, 115, 109]

/-- ASCII bytes of the algorithm name sha256. -/
def sha256Name : List Nat := [115, 104, 97, 50, 53, 54]

/-- ASCII bytes of the algorithm name sha1. -/
def sha1Name : List Nat := [115, 104, 97, 49]

/-- Modelled from the spec: the signed-seconds type time_t of the
platform, taken as a 64-bit signed integer; lower bound. -/
def TIME_T_MIN : Int := -(2 ^ 63)

/-- Modelled from the spec: upper bound of the 64-bit signed time_t. -/
def TIME_T_MAX : Int := 2 ^ 63 - 1

/-- Predicate for integers representable in the modelled time_t. -/
def isTimeT (t : Int) : Prop := TIME_T_MIN ≤ t ∧ t ≤ TIME_T_MAX

instance (t : Int) : Decidable (isTimeT t) := by
  unfold isTimeT
  infer_instance

/-! Decimal rendering of time_t values (hawkc_ttoa, hawkc_number_of_digits). -/

/-- Fueled most-significant-first decimal digit rendering of a natural
number as ASCII bytes.  The fuel argument only serves structural
termination; any fuel above the argument is enough. -/
def natDigitsAux : Nat → Nat → List Nat
  | 0, _ => []
  | fuel + 1, n => if n < 10 then [n + 48] else natDigitsAux fuel (n / 10) ++ [n % 10 + 48]

/-- Decimal ASCII rendering of a natural number, most significant digit first. -/
def natDigits (n : Nat) : List Nat := natDigitsAux (n + 1) n

/-- Modelled from the spec: hawkc_ttoa (common.c is not in src/) renders
a time_t decimally, with a leading minus sign for negative values; the
returned byte count is the length of the produced list. -/
def hawkc_ttoa (t : Int) : List Nat :=
  if t < 0 then 45 :: natDigits t.natAbs else natDigits t.natAbs

/-- Fueled decimal digit count of a natural number. -/
def digitCountAux : Nat → Nat → Nat
  | 0, _ => 1
  | fuel + 1, n => if n < 10 then 1 else digitCountAux fuel (n / 10) + 1

/-- Modelled from the spec: hawkc_number_of_digits (common.c is not in
src/) returns the number of decimal digits of a time_t value. -/
def hawkc_number_of_digits (t : Int) : Nat := digitCountAux (t.natAbs + 1) t.natAbs

/-- Accumulating decimal value of an ASCII digit list, exactly the loop
shape used by parse_time. -/
def digitsToNat (ds : List Nat) : Nat := ds.foldl (fun a c => a * 10 + (c - 48)) 0

/-! Timestamp parsing (parse_time from common.h, body in the missing common.c). -/

/-- ASCII decimal digit test. -/
def isDigit (c : Nat) : Bool := decide (48 ≤ c ∧ c ≤ 57)

/-- Sign-splitting step of decimal integer parsing: strips one leading
minus (45) or plus (43) byte and reports whether the value is negated. -/
def splitSign (s : List Nat) : Bool × List Nat :=
  match s with
  | [] => (false, [])
  | c :: rest => if c = 45 then (true, rest) else if c = 43 then (false, rest) else (false, s)

/-- Modelled from the spec: parse_time (common.c is not in src/) parses
a signed decimal integer; a non-digit beyond a single leading sign
yields HAWKC_TIME_VALUE_ERROR and a value outside time_t yields
HAWKC_OVERFLOW_ERROR. -/
def parse_time (s : List Nat) : Except HawkcError Int :=
  let p := splitSign s
  if p.2 = [] then .error .HAWKC_TIME_VALUE_ERROR
  else if p.2.all isDigit then
    let v : Int := if p.1 then -(digitsToNat p.2 : Int) else (digitsToNat p.2 : Int)
    if v < TIME_T_MIN ∨ TIME_T_MAX < v then .error .HAWKC_OVERFLOW_ERROR
    else .ok v
  else .error .HAWKC_TIME_VALUE_ERROR

/-- Mathematical integer denoted by a decimal byte string: an optional
sign byte followed by digits valued via Mathlib Nat.ofDigits. -/
def tsDenote (s : List Nat) : Int :=
  let p := splitSign s
  let m : Int := (Nat.ofDigits 10 ((p.2.map (fun c => c - 48)).reverse) : Nat)
  if p.1 then -m else m

/-- Well-formed decimal time strings: at most one leading sign byte,
then at least one digit and nothing else. -/
def TsWellFormed (s : List Nat) : Prop :=
  ∃ sign ds, (sign = ([] : List Nat) ∨ sign = [45] ∨ sign = [43]) ∧ ds ≠ [] ∧
    (∀ c ∈ ds, 48 ≤ c ∧ c ≤ 57) ∧ s = sign ++ ds

/-! Base string construction (hawkc_create_base_string,
hawkc_calculate_base_string_length, hawkc_create_ts_base_string;
declared in src/hawkc/common.h, bodies in the missing common.c). -/

/-- ASCII lowercasing of one byte, as done for the host line. -/
def asciiLower (c : Nat) : Nat := if 65 ≤ c ∧ c ≤ 90 then c + 32 else c

/-- Appending of one LF-terminated line to a buffer. -/
def appendLine (buf part : List Nat) : List Nat := buf ++ part ++ [10]

/-- Line contents of the request base string, in emission order. -/
def baseStringParts (ctx : HawkcContext) (h : AuthorizationHeader) : List (List Nat) :=
  [headerTag, hawkc_ttoa h.ts, h.nonce, ctx.method, ctx.path,
    ctx.host.map asciiLower, ctx.port, h.hash, h.ext]
    ++ (if h.app = [] then [] else [h.app, h.dlg])

/-- Modelled from the spec: hawkc_create_base_string (common.c is not in
src/) writes the LF-terminated lines of the Hawk request base string. -/
def hawkc_create_base_string (ctx : HawkcContext) (h : AuthorizationHeader) : List Nat :=
  (baseStringParts ctx h).foldl appendLine []

/-- Modelled from the spec: hawkc_calculate_base_string_length (common.c
is not in src/) computes the exact byte count of the request base string. -/
def hawkc_calculate_base_string_length (ctx : HawkcContext) (h : AuthorizationHeader) : Nat :=
  14 + (hawkc_number_of_digits h.ts + (if h.ts < 0 then 1 else 0)) + 1
    + h.nonce.length + 1 + ctx.method.length + 1 + ctx.path.length + 1
    + ctx.host.length + 1 + ctx.port.length + 1 + h.hash.length + 1 + h.ext.length + 1
    + (if h.app = [] then 0 else h.app.length + 1 + h.dlg.length + 1)

/-- Modelled from the spec: hawkc_create_ts_base_string (common.c is not
in src/) writes the timestamp base string hawk.1.ts LF ts LF. -/
def hawkc_create_ts_base_string (h : WwwAuthenticateHeader) : List Nat :=
  ([tsTag, hawkc_ttoa h.ts]).foldl appendLine []

/-! Fixed-time comparison (hawkc_fixed_time_equal, declared in
src/hawkc/common.h with the contract: return 1 if the byte sequences
are byte-wise equal, 0 otherwise). -/

/-- Modelled from the spec: hawkc_fixed_time_equal (common.c is not in
src/) folds the XOR of each byte pair into an accumulator without
branching on byte values and returns 1 exactly when the accumulator
stayed zero. -/
def hawkc_fixed_time_equal (lhs rhs : List Nat) : Nat :=
  if (List.zipWith (fun a b => a ^^^ b) lhs rhs).foldl (fun a b => a ||| b) 0 = 0 then 1 else 0

/-- Modelled from the spec: the MAC comparison step of
hawkc_validate_hmac requires equal lengths and then defers to the
fixed-time comparator. -/
def hawkc_validate_mac (received computed : List Nat) : Bool :=
  if received.length = computed.length then
    decide (hawkc_fixed_time_equal received computed = 1)
  else false

/-! Base-string buffer selection policy (BASE_BUFFER_SIZE and
MAX_DYN_BASE_BUFFER_SIZE, src/hawkc/common.h lines 25-41). -/

/-- Buffer used to hold a base string. -/
inductive BaseBufferChoice where
  | staticBuf
  | dynamicBuf
deriving DecidableEq

/-- Modelled from the spec: the buffer selection made before base string
construction -- the static 512-byte buffer when it suffices, a dynamic
allocation up to the 2048-byte cap, HAWKC_REQUIRED_BUFFER_TOO_LARGE
beyond it. -/
def baseStringBufferPlan (n : Nat) : Except HawkcError BaseBufferChoice :=
  if n ≤ BASE_BUFFER_SIZE then .ok .staticBuf
  else if n ≤ MAX_DYN_BASE_BUFFER_SIZE then .ok .dynamicBuf
  else .error .HAWKC_REQUIRED_BUFFER_TOO_LARGE

/-! Algorithm registry (struct HawkcAlgorithm from src/hawkc/common.h,
lookup declared in src/hawkc/hawkc.h). -/

/-- Constant HAWKC_SHA_256, the predefined SHA-256 algorithm record. -/
def HAWKC_SHA_256 : HawkcAlgorithm := ⟨sha256Name⟩

/-- Constant HAWKC_SHA_1, the predefined SHA-1 algorithm record. -/
def HAWKC_SHA_1 : HawkcAlgorithm := ⟨sha1Name⟩

/-- Modelled from the spec: hawkc_algorithm_by_name (common.c is not in
src/) matches the supplied name case-sensitively against the two
predefined records and reports not-found otherwise. -/
def hawkc_algorithm_by_name (name : List Nat) : Option HawkcAlgorithm :=
  if name = sha256Name then some HAWKC_SHA_256
  else if name = sha1Name then some HAWKC_SHA_1
  else none

/-- Modelled from the spec: the MAC output length in bytes that the
crypto layer (crypto_openssl.c is not in src/) associates with an
algorithm -- 32 for SHA-256, 20 for SHA-1. -/
def hawkc_mac_bytes (a : HawkcAlgorithm) : Nat :=
  if a.name = sha256Name then 32 else if a.name = sha1Name then 20 else 0

/-- Record shape that section 3 of the spec ascribes to an algorithm:
name, HMAC identifier and MAC byte length.  Stated from the words of
the spec for comparison with the source struct HawkcAlgorithm. -/
structure SpecAlgorithmRecord where
  name : List Nat
  hmac_id : Nat
  mac_bytes : Nat
deriving DecidableEq

/-! Base64 encoding (base64.c is not in src/). -/

/-- Modelled from the spec: the standard base64 alphabet value of one
6-bit group. -/
def b64Char (n : Nat) : Nat :=
  if n < 26 then 65 + n
  else if n < 52 then 97 + (n - 26)
  else if n < 62 then 48 + (n - 52)
  else if n = 62 then 43
  else 47

/-- Modelled from the spec: standard base64 encoding with padding, three
input bytes per four output characters. -/
def base64Encode : List Nat → List Nat
  | [] => []
  | [b1] => [b64Char (b1 / 4), b64Char (b1 % 4 * 16), 61, 61]
  | [b1, b2] => [b64Char (b1 / 4), b64Char (b1 % 4 * 16 + b2 / 16), b64Char (b2 % 16 * 4), 61]
  | b1 :: b2 :: b3 :: rest =>
      b64Char (b1 / 4) :: b64Char (b1 % 4 * 16 + b2 / 16) :: b64Char (b2 % 16 * 4 + b3 / 64)
        :: b64Char (b3 % 64) :: base64Encode rest

/-- Exact output size of base64 encoding of n input bytes. -/
def base64EncodedLength (n : Nat) : Nat := 4 * ((n + 2) / 3)

/-! Header-value parser (hawkc_parse_auth_header, declared in
src/hawkc/common.h, body in the missing parser.c).  The parser is
modelled from the grammar in section 4.C of the spec; instead of the
push callbacks it returns the scheme slice and the key and value slice
pairs in order of appearance. -/

/-- Token character test following RFC 7230 tchar, as listed in the spec. -/
def isTokenChar (c : Nat) : Bool :=
  decide ((65 ≤ c ∧ c ≤ 90) ∨ (97 ≤ c ∧ c ≤ 122) ∨ (48 ≤ c ∧ c ≤ 57) ∨
    c ∈ ([33, 35, 36, 37, 38, 39, 42, 43, 45, 46, 94, 95, 96, 124, 126] : List Nat))

/-- Whitespace test: ASCII space and horizontal tab. -/
def isWSChar (c : Nat) : Bool := decide (c = 32 ∨ c = 9)

/-- Skipping of optional whitespace. -/
def skipWS (s : List Nat) : List Nat := s.dropWhile isWSChar

/-- Quoted-string tail parsing: consumes up to and including the closing
double quote, returning the value slice with backslash escapes
preserved, and the remaining input. -/
def quotedRest : List Nat → Option (List Nat × List Nat)
  | [] => none
  | c :: cs =>
    if c = 34 then some ([], cs)
    else if c = 92 then
      match cs with
      | [] => none
      | d :: ds => (quotedRest ds).map (fun vr => (92 :: d :: vr.1, vr.2))
    else (quotedRest cs).map (fun vr => (c :: vr.1, vr.2))

/-- Parsing of one key=value parameter: token key, optional whitespace,
equals sign, optional whitespace, then a quoted string or a token. -/
def parseParam (s : List Nat) : Option ((List Nat × List Nat) × List Nat) :=
  let key := s.takeWhile isTokenChar
  let r1 := skipWS (s.dropWhile isTokenChar)
  if key = [] then none
  else
    match r1 with
    | [] => none
    | c :: r3 =>
      if c = 61 then
        let r4 := skipWS r3
        match r4 with
        | [] => none
        | d :: r5 =>
          if d = 34 then (quotedRest r5).map (fun vr => ((key, vr.1), vr.2))
          else
            let v := r4.takeWhile isTokenChar
            let rest := r4.dropWhile isTokenChar
            if v = [] then none else some ((key, v), rest)
      else none

/-- Parameter-list continuation: after each parameter, optional
whitespace then either end of input or a comma and a further parameter.
The fuel argument only serves termination; the initial call supplies
more fuel than bytes of input. -/
def parseParamsLoop : Nat → List Nat → Option (List (List Nat × List Nat))
  | 0, _ => none
  | fuel + 1, s =>
    match skipWS s with
    | [] => some []
    | c :: r2 =>
      if c = 44 then
        match parseParam (skipWS r2) with
        | none => none
        | some (kv, rest) => (parseParamsLoop fuel rest).map (fun ps => kv :: ps)
      else none

/-- Modelled from the spec: hawkc_parse_auth_header (parser.c is not in
src/) parses optional whitespace, a scheme token, whitespace, then a
comma-separated parameter list, yielding the scheme and parameter
slices. -/
def hawkc_parse_auth_header (s : List Nat) :
    Option (List Nat × List (List Nat × List Nat)) :=
  let s1 := skipWS s
  let scheme := s1.takeWhile isTokenChar
  let r1 := s1.dropWhile isTokenChar
  if scheme = [] then none
  else
    match r1 with
    | [] => none
    | c :: _ =>
      if isWSChar c then
        match parseParam (skipWS r1) with
        | none => none
        | some (kv, rest) =>
          (parseParamsLoop (rest.length + 1) rest).map (fun ps => (scheme, kv :: ps))
      else none

/-! Serialization of authentication headers.  The emitted wire format
follows section 6 of the spec: parameters as key="value" separated by
comma and space, after the scheme token and one space. -/

/-- Serialization of one key="value" parameter. -/
def emitParam (k v : List Nat) : List Nat := k ++ [61, 34] ++ v ++ [34]

/-- Serialization of the second and later parameters, each preceded by
comma and space. -/
def emitRest : List (List Nat × List Nat) → List Nat
  | [] => []
  | kv :: rest => 44 :: 32 :: (emitParam kv.1 kv.2 ++ emitRest rest)

/-- Serialization of a whole header value from scheme and parameters. -/
def emitHeader (scheme : List Nat) : List (List Nat × List Nat) → List Nat
  | [] => scheme
  | kv :: rest => scheme ++ 32 :: (emitParam kv.1 kv.2 ++ emitRest rest)

/-- Well-formedness of one emitted parameter: nonempty token key and a
value free of double quotes and backslashes. -/
def ParamWF (kv : List Nat × List Nat) : Prop :=
  kv.1 ≠ [] ∧ (∀ x ∈ kv.1, isTokenChar x = true) ∧ (∀ x ∈ kv.2, x ≠ 34 ∧ x ≠ 92)

/-- Well-formedness of an emitted parameter list. -/
def ParamsWF (ps : List (List Nat × List Nat)) : Prop := ∀ kv ∈ ps, ParamWF kv

/-! Authorization header parsing (hawkc_parse_authorization_header,
declared in src/hawkc/hawkc.h line 273, body in the missing
authorization.c). -/

/-- Parameter keys recognized by the authorization-header parameter
handler; every other key is ignored. -/
def knownKeys : List (List Nat) := [keyId, keyMac, keyHash, keyNonce, keyApp, keyDlg, keyExt, keyTs]

/-- Header bag with all slices empty and ts zero, the state before
parameter dispatch. -/
def emptyAuthorizationHeader : AuthorizationHeader := ⟨[], [], [], [], 0, [], [], []⟩

/-- Modelled from the spec: the per-parameter dispatch of
hawkc_parse_authorization_header -- known keys populate their slice, ts
is parsed as a decimal integer, unknown keys are ignored.  The boolean
tracks whether a ts parameter was seen. -/
def applyAuthParam (st : AuthorizationHeader × Bool) (kv : List Nat × List Nat) :
    Except HawkcError (AuthorizationHeader × Bool) :=
  if kv.1 = keyId then .ok ({ st.1 with id := kv.2 }, st.2)
  else if kv.1 = keyMac then .ok ({ st.1 with mac := kv.2 }, st.2)
  else if kv.1 = keyHash then .ok ({ st.1 with hash := kv.2 }, st.2)
  else if kv.1 = keyNonce then .ok ({ st.1 with nonce := kv.2 }, st.2)
  else if kv.1 = keyApp then .ok ({ st.1 with app := kv.2 }, st.2)
  else if kv.1 = keyDlg then .ok ({ st.1 with dlg := kv.2 }, st.2)
  else if kv.1 = keyExt then .ok ({ st.1 with ext := kv.2 }, st.2)
  else if kv.1 = keyTs then (parse_time kv.2).map (fun t => ({ st.1 with ts := t }, true))
  else .ok st

/-- Folding of the parameter dispatch over a parsed parameter list. -/
def processAuthParams (ps : List (List Nat × List Nat)) :
    Except HawkcError (AuthorizationHeader × Bool) :=
  ps.foldlM applyAuthParam (emptyAuthorizationHeader, false)

/-- Modelled from the spec: hawkc_parse_authorization_header runs the
generic parser, rejects schemes other than Hawk, dispatches each
parameter, and requires id, mac, nonce and ts to be present. -/
def hawkc_parse_authorization_header (s : List Nat) : Except HawkcError AuthorizationHeader :=
  match hawkc_parse_auth_header s with
  | none => .error .HAWKC_PARSE_ERROR
  | some (scheme, ps) =>
    if scheme = hawkSchemeBytes then
      match processAuthParams ps with
      | .error e => .error e
      | .ok (h, hasTs) =>
        if h.id ≠ [] ∧ h.mac ≠ [] ∧ h.nonce ≠ [] ∧ hasTs = true then .ok h
        else .error .HAWKC_PARSE_ERROR
    else .error .HAWKC_BAD_SCHEME_ERROR

/-- Optional parameter emission: nothing for an empty value. -/
def optParam (k v : List Nat) : List (List Nat × List Nat) :=
  if v = [] then [] else [(k, v)]

/-- Parameter list of a serialized authorization header, in the fixed
emission order of section 6 of the spec. -/
def authHeaderParams (h : AuthorizationHeader) : List (List Nat × List Nat) :=
  [(keyId, h.id), (keyTs, hawkc_ttoa h.ts), (keyNonce, h.nonce)]
    ++ optParam keyHash h.hash ++ optParam keyExt h.ext
    ++ optParam keyApp h.app ++ optParam keyDlg h.dlg
    ++ [(keyMac, h.mac)]

/-- Modelled from the spec: the serialization performed by
hawkc_create_authorization_header for a given parameter bag. -/
def serializeAuthorizationHeader (h : AuthorizationHeader) : List Nat :=
  emitHeader hawkSchemeBytes (authHeaderParams h)

/-- Well-formed printable parameter value without double quote or
backslash bytes. -/
def ValueWF (v : List Nat) : Prop := ∀ x ∈ v, 32 ≤ x ∧ x ≤ 126 ∧ x ≠ 34 ∧ x ≠ 92

/-- Well-formed authorization bag: required fields present, all values
printable without quote or backslash, timestamp within time_t. -/
def AuthBagWF (h : AuthorizationHeader) : Prop :=
  h.id ≠ [] ∧ h.mac ≠ [] ∧ h.nonce ≠ [] ∧
    ValueWF h.id ∧ ValueWF h.mac ∧ ValueWF h.hash ∧ ValueWF h.nonce ∧
    ValueWF h.app ∧ ValueWF h.dlg ∧ ValueWF h.ext ∧ isTimeT h.ts

/-- Presence of a parameter with the given key in a parsed parameter list. -/
def hasKey (ps : List (List Nat × List Nat)) (k : List Nat) : Prop := ∃ kv ∈ ps, kv.1 = k

/-! Header construction and its exact size precomputation
(hawkc_create_authorization_header,
hawkc_calculate_authorization_header_length,
hawkc_create_www_authenticate_header,
hawkc_calculate_www_authenticate_header_length; declared in
src/hawkc/hawkc.h, bodies in the missing authorization.c and
www_authenticate.c).  The HMAC primitive is out of scope per section 1
of the spec and enters as a function argument constrained to produce
hawkc_mac_bytes bytes. -/

/-- Modelled from the spec: hawkc_create_authorization_header
serializes the outbound bag with ts taken from the clock plus the
context offset, the context nonce, and the base64 encoded HMAC of the
request base string as mac. -/
def hawkc_create_authorization_header (ctx : HawkcContext) (now : Int)
    (hmacFn : List Nat → List Nat → List Nat) : List Nat :=
  let h0 : AuthorizationHeader := { ctx.header_out with ts := now + ctx.offset, nonce := ctx.nonce }
  let mac := base64Encode (hmacFn ctx.password (hawkc_create_base_string ctx h0))
  serializeAuthorizationHeader { h0 with mac := mac }

/-- Modelled from the spec: hawkc_calculate_authorization_header_length
computes the exact size of the serialized authorization header from the
context state. -/
def hawkc_calculate_authorization_header_length (ctx : HawkcContext) (now : Int) : Nat :=
  let ts := now + ctx.offset
  let tsChars := hawkc_number_of_digits ts + (if ts < 0 then 1 else 0)
  5 + (5 + ctx.header_out.id.length) + (7 + tsChars) + (10 + ctx.nonce.length)
    + (if ctx.header_out.hash = [] then 0 else 9 + ctx.header_out.hash.length)
    + (if ctx.header_out.ext = [] then 0 else 8 + ctx.header_out.ext.length)
    + (if ctx.header_out.app = [] then 0 else 8 + ctx.header_out.app.length)
    + (if ctx.header_out.dlg = [] then 0 else 8 + ctx.header_out.dlg.length)
    + (8 + base64EncodedLength (hawkc_mac_bytes ctx.algorithm))

/-- Modelled from the spec: hawkc_create_www_authenticate_header
serializes Hawk ts and tsm, where tsm is the base64 encoded HMAC of the
timestamp base string. -/
def hawkc_create_www_authenticate_header (ctx : HawkcContext)
    (hmacFn : List Nat → List Nat → List Nat) : List Nat :=
  let tsm := base64Encode (hmacFn ctx.password
    (hawkc_create_ts_base_string ctx.www_authenticate_header))
  emitHeader hawkSchemeBytes [(keyTs, hawkc_ttoa ctx.www_authenticate_header.ts), (keyTsm, tsm)]

/-- Modelled from the spec: hawkc_calculate_www_authenticate_header_length
computes the exact size of the serialized WWW-Authenticate header. -/
def hawkc_calculate_www_authenticate_header_length (ctx : HawkcContext) : Nat :=
  let ts := ctx.www_authenticate_header.ts
  18 + hawkc_number_of_digits ts + (if ts < 0 then 1 else 0)
    + base64EncodedLength (hawkc_mac_bytes ctx.algorithm)

theorem natDigitsAux_irrel : ∀ f g n, n < f → n < g → natDigitsAux f n = natDigitsAux g n := by
  intro f
  induction f with
  | zero => intro g n h; omega
  | succ f ih =>
    intro g n hf hg
    cases g with
    | zero => omega
    | succ g =>
      by_cases h10 : n < 10
      · simp [natDigitsAux, h10]
      · have h1 : n / 10 < f := by omega
        have h2 : n / 10 < g := by omega
        simp only [natDigitsAux, if_neg h10]
        rw [ih g (n / 10) h1 h2]

theorem digitCountAux_irrel : ∀ f g n, n < f → n < g → digitCountAux f n = digitCountAux g n := by
  intro f
  induction f with
  | zero => intro g n h; omega
  | succ f ih =>
    intro g n hf hg
    cases g with
    | zero => omega
    | succ g =>
      by_cases h10 : n < 10
      · simp [digitCountAux, h10]
      · have h1 : n / 10 < f := by omega
        have h2 : n / 10 < g := by omega
        simp only [digitCountAux, if_neg h10]
        rw [ih g (n / 10) h1 h2]

theorem natDigits_of_lt (n : Nat) (h : n < 10) : natDigits n = [n + 48] := by
  simp [natDigits, natDigitsAux, h]

theorem natDigits_of_ge (n : Nat) (h : 10 ≤ n) : natDigits n = natDigits (n / 10) ++ [n % 10 + 48] := by
  have e : natDigits n = if n < 10 then [n + 48] else natDigitsAux n (n / 10) ++ [n % 10 + 48] := rfl
  rw [e, if_neg (by omega)]
  rw [natDigitsAux_irrel n (n / 10 + 1) (n / 10) (by omega) (by omega)]
  rfl

theorem digitCount_of_lt (n : Nat) (h : n < 10) : digitCountAux (n + 1) n = 1 := by
  simp [digitCountAux, h]

theorem digitCount_of_ge (n : Nat) (h : 10 ≤ n) :
    digitCountAux (n + 1) n = digitCountAux (n / 10 + 1) (n / 10) + 1 := by
  have e : digitCountAux (n + 1) n = if n < 10 then 1 else digitCountAux n (n / 10) + 1 := rfl
  rw [e, if_neg (by omega)]
  rw [digitCountAux_irrel n (n / 10 + 1) (n / 10) (by omega) (by omega)]

theorem natDigits_length : ∀ n, (natDigits n).length = digitCountAux (n + 1) n := by
  intro n
  induction n using Nat.strong_induction_on with
  | _ n ih =>
    by_cases h : n < 10
    · rw [natDigits_of_lt n h, digitCount_of_lt n h]
      rfl
    · have h10 : 10 ≤ n := by omega
      rw [natDigits_of_ge n h10, digitCount_of_ge n h10]
      rw [List.length_append, ih (n / 10) (by omega)]
      rfl

theorem digitCount_eq_log : ∀ n, digitCountAux (n + 1) n = Nat.log 10 n + 1 := by
  intro n
  induction n using Nat.strong_induction_on with
  | _ n ih =>
    by_cases h : n < 10
    · rw [digitCount_of_lt n h]
      have : Nat.log 10 n = 0 := Nat.log_eq_zero_iff.mpr (Or.inl h)
      omega
    · have h10 : 10 ≤ n := by omega
      rw [digitCount_of_ge n h10, ih (n / 10) (by omega)]
      have hd : Nat.log 10 (n / 10) = Nat.log 10 n - 1 := Nat.log_div_base 10 n
      have hp : 0 < Nat.log 10 n := Nat.log_pos (by omega) h10
      omega

theorem natDigits_mem : ∀ n c, c ∈ natDigits n → 48 ≤ c ∧ c ≤ 57 := by
  intro n
  induction n using Nat.strong_induction_on with
  | _ n ih =>
    intro c hc
    by_cases h : n < 10
    · rw [natDigits_of_lt n h] at hc
      simp at hc
      omega
    · have h10 : 10 ≤ n := by omega
      rw [natDigits_of_ge n h10] at hc
      rw [List.mem_append] at hc
      rcases hc with hc | hc
      · exact ih (n / 10) (by omega) c hc
      · simp at hc
        have : n % 10 < 10 := Nat.mod_lt n (by omega)
        omega

theorem natDigits_ne_nil (n : Nat) : natDigits n ≠ [] := by
  by_cases h : n < 10
  · rw [natDigits_of_lt n h]
    simp
  · rw [natDigits_of_ge n (by omega)]
    simp

theorem digitsToNat_natDigits : ∀ n, digitsToNat (natDigits n) = n := by
  intro n
  induction n using Nat.strong_induction_on with
  | _ n ih =>
    by_cases h : n < 10
    · rw [natDigits_of_lt n h]
      simp [digitsToNat]
    · have h10 : 10 ≤ n := by omega
      rw [natDigits_of_ge n h10]
      have := ih (n / 10) (by omega)
      simp only [digitsToNat] at this ⊢
      rw [List.foldl_append, this]
      simp
      omega

theorem foldl_digits_acc (l : List Nat) :
    ∀ a, l.foldl (fun x c => x * 10 + (c - 48)) a =
      a * 10 ^ l.length + l.foldl (fun x c => x * 10 + (c - 48)) 0 := by
  induction l with
  | nil => intro a; simp
  | cons c l ih =>
    intro a
    simp only [List.foldl_cons, List.length_cons]
    rw [ih (a * 10 + (c - 48)), ih (0 * 10 + (c - 48))]
    ring

theorem digitsToNat_eq_ofDigits :
    ∀ l : List Nat, digitsToNat l = Nat.ofDigits 10 ((l.map (fun c => c - 48)).reverse) := by
  intro l
  induction l with
  | nil => simp [digitsToNat]
  | cons c l ih =>
    simp only [digitsToNat, List.foldl_cons, List.map_cons, List.reverse_cons]
    rw [Nat.ofDigits_append]
    rw [foldl_digits_acc]
    simp only [digitsToNat] at ih
    rw [ih]
    simp [Nat.ofDigits_singleton]
    ring

theorem hawkc_ttoa_length (t : Int) :
    (hawkc_ttoa t).length = hawkc_number_of_digits t + (if t < 0 then 1 else 0) := by
  unfold hawkc_ttoa hawkc_number_of_digits
  by_cases h : t < 0
  · simp only [if_pos h, List.length_cons, natDigits_length]
  · simp only [if_neg h, natDigits_length]
    omega

theorem splitSign_digits (ds : List Nat) (h : ∀ c ∈ ds, 48 ≤ c ∧ c ≤ 57) :
    splitSign ds = (false, ds) := by
  cases ds with
  | nil => rfl
  | cons c rest =>
    have hc := h c (by simp)
    simp only [splitSign]
    rw [if_neg (by omega), if_neg (by omega)]

theorem parse_time_split (s : List Nat) (neg : Bool) (ds : List Nat)
    (hsplit : splitSign s = (neg, ds)) (hne : ds ≠ []) (hds : ∀ c ∈ ds, 48 ≤ c ∧ c ≤ 57) :
    tsDenote s = (if neg then -(digitsToNat ds : Int) else (digitsToNat ds : Int)) ∧
    (isTimeT (tsDenote s) → parse_time s = .ok (tsDenote s)) ∧
    (¬ isTimeT (tsDenote s) → parse_time s = .error .HAWKC_OVERFLOW_ERROR) := by
  have hall : (ds.all isDigit) = true := by
    rw [List.all_eq_true]
    intro c hc
    have := hds c hc
    simp [isDigit]
    omega
  have hden : tsDenote s = (if neg then -(digitsToNat ds : Int) else (digitsToNat ds : Int)) := by
    simp only [tsDenote, hsplit]
    rw [digitsToNat_eq_ofDigits]
  refine ⟨hden, ?_, ?_⟩
  · intro hrange
    rw [hden] at hrange ⊢
    unfold isTimeT at hrange
    simp only [parse_time, hsplit, if_neg hne, hall, if_true]
    rw [if_neg (by cases neg <;> simp at hrange ⊢ <;> omega)]
  · intro hrange
    rw [hden] at hrange
    unfold isTimeT at hrange
    simp only [parse_time, hsplit, if_neg hne, hall, if_true]
    rw [if_pos (by cases neg <;> simp at hrange ⊢ <;> omega)]

theorem parse_time_wf (s : List Nat) (h : TsWellFormed s) :
    (isTimeT (tsDenote s) → parse_time s = .ok (tsDenote s)) ∧
    (¬ isTimeT (tsDenote s) → parse_time s = .error .HAWKC_OVERFLOW_ERROR) := by
  obtain ⟨sign, ds, hsign, hne, hds, rfl⟩ := h
  rcases hsign with h | h | h <;> subst h
  · have hsplit : splitSign ([] ++ ds) = (false, ds) := by
      simpa using splitSign_digits ds hds
    exact (parse_time_split _ false ds hsplit hne hds).2
  · have hsplit : splitSign ([45] ++ ds) = (true, ds) := by
      simp [splitSign]
    exact (parse_time_split _ true ds hsplit hne hds).2
  · have hsplit : splitSign ([43] ++ ds) = (false, ds) := by
      simp only [List.cons_append, List.nil_append, splitSign]
      rw [if_neg (by omega)]
      simp
    exact (parse_time_split _ false ds hsplit hne hds).2

theorem parse_time_malformed (s : List Nat) (h : ¬ TsWellFormed s) :
    parse_time s = .error .HAWKC_TIME_VALUE_ERROR := by
  by_cases h2 : (splitSign s).2 = []
  · simp [parse_time, h2]
  · by_cases h3 : (splitSign s).2.all isDigit
    · exfalso
      apply h
      have hds : ∀ c ∈ (splitSign s).2, 48 ≤ c ∧ c ≤ 57 := by
        intro c hc
        have := List.all_eq_true.mp h3 c hc
        simp [isDigit] at this
        omega
      cases s with
      | nil => simp [splitSign] at h2
      | cons c rest =>
        by_cases hc45 : c = 45
        · refine ⟨[45], rest, by simp, ?_, ?_, by simp [hc45]⟩
          · have : splitSign (c :: rest) = (true, rest) := by simp [splitSign, hc45]
            rw [this] at h2
            exact h2
          · have : splitSign (c :: rest) = (true, rest) := by simp [splitSign, hc45]
            rw [this] at hds
            exact hds
        · by_cases hc43 : c = 43
          · refine ⟨[43], rest, by simp, ?_, ?_, by simp [hc43]⟩
            · have : splitSign (c :: rest) = (false, rest) := by simp [splitSign, hc45, hc43]
              rw [this] at h2
              exact h2
            · have : splitSign (c :: rest) = (false, rest) := by simp [splitSign, hc45, hc43]
              rw [this] at hds
              exact hds
          · have heq : splitSign (c :: rest) = (false, c :: rest) := by
              simp [splitSign, hc45, hc43]
            refine ⟨[], c :: rest, by simp, by simp, ?_, by simp⟩
            rw [heq] at hds
            exact hds
    · simp only [parse_time]
      rw [if_neg h2, if_neg]
      simp [h3]

theorem tsDenote_ttoa (t : Int) : tsDenote (hawkc_ttoa t) = t := by
  unfold hawkc_ttoa
  have hds := natDigits_mem t.natAbs
  by_cases h : t < 0
  · rw [if_pos h]
    have hsplit : splitSign (45 :: natDigits t.natAbs) = (true, natDigits t.natAbs) := by
      simp [splitSign]
    simp only [tsDenote, hsplit]
    rw [← digitsToNat_eq_ofDigits, digitsToNat_natDigits]
    simp only [if_true]
    omega
  · rw [if_neg h]
    have hsplit := splitSign_digits (natDigits t.natAbs) (fun c hc => hds c hc)
    simp only [tsDenote, hsplit]
    rw [← digitsToNat_eq_ofDigits, digitsToNat_natDigits]
    simp only [Bool.false_eq_true, if_false]
    omega

theorem ttoa_wf (t : Int) : TsWellFormed (hawkc_ttoa t) := by
  unfold hawkc_ttoa
  by_cases h : t < 0
  · rw [if_pos h]
    exact ⟨[45], natDigits t.natAbs, by simp, natDigits_ne_nil _, natDigits_mem _, rfl⟩
  · rw [if_neg h]
    exact ⟨[], natDigits t.natAbs, by simp, natDigits_ne_nil _, natDigits_mem _, rfl⟩

theorem parse_time_ttoa (t : Int) (h : isTimeT t) : parse_time (hawkc_ttoa t) = .ok t := by
  have := (parse_time_wf (hawkc_ttoa t) (ttoa_wf t)).1
  rw [tsDenote_ttoa] at this
  exact this h

theorem create_base_string_concat (ctx : HawkcContext) (h : AuthorizationHeader) :
    hawkc_create_base_string ctx h =
      headerTag ++ [10] ++ hawkc_ttoa h.ts ++ [10] ++ h.nonce ++ [10] ++ ctx.method ++ [10]
        ++ ctx.path ++ [10] ++ ctx.host.map asciiLower ++ [10] ++ ctx.port ++ [10]
        ++ h.hash ++ [10] ++ h.ext ++ [10]
        ++ (if h.app = [] then [] else h.app ++ [10] ++ h.dlg ++ [10]) := by
  by_cases happ : h.app = []
  · simp [hawkc_create_base_string, baseStringParts, appendLine, happ, List.append_assoc]
  · simp [hawkc_create_base_string, baseStringParts, appendLine, happ, List.append_assoc]

theorem create_base_string_length (ctx : HawkcContext) (h : AuthorizationHeader) :
    (hawkc_create_base_string ctx h).length = hawkc_calculate_base_string_length ctx h := by
  rw [create_base_string_concat]
  unfold hawkc_calculate_base_string_length
  by_cases happ : h.app = []
  · simp [happ, hawkc_ttoa_length, headerTag]
    omega
  · simp [happ, hawkc_ttoa_length, headerTag]
    omega

theorem create_ts_base_string_concat (h : WwwAuthenticateHeader) :
    hawkc_create_ts_base_string h = tsTag ++ [10] ++ hawkc_ttoa h.ts ++ [10] := by
  simp [hawkc_create_ts_base_string, appendLine, List.append_assoc]

theorem create_ts_base_string_length (h : WwwAuthenticateHeader) :
    (hawkc_create_ts_base_string h).length = 11 + (hawkc_ttoa h.ts).length := by
  rw [create_ts_base_string_concat]
  simp [tsTag]
  omega

theorem nat_or_eq_zero (a b : Nat) : a ||| b = 0 ↔ a = 0 ∧ b = 0 := by
  constructor
  · intro h
    constructor
    · apply Nat.eq_of_testBit_eq
      intro i
      have := congrArg (fun n => Nat.testBit n i) h
      simp [Nat.testBit_or] at this
      simp [this.1]
    · apply Nat.eq_of_testBit_eq
      intro i
      have := congrArg (fun n => Nat.testBit n i) h
      simp [Nat.testBit_or] at this
      simp [this.2]
  · rintro ⟨rfl, rfl⟩
    rfl

theorem foldl_or_eq_zero (l : List Nat) :
    ∀ a, (l.foldl (fun x y => x ||| y) a = 0 ↔ a = 0 ∧ ∀ x ∈ l, x = 0) := by
  induction l with
  | nil => intro a; simp
  | cons b l ih =>
    intro a
    simp only [List.foldl_cons, List.mem_cons]
    rw [ih (a ||| b)]
    constructor
    · rintro ⟨hab, hall⟩
      have := (nat_or_eq_zero a b).mp hab
      exact ⟨this.1, fun x hx => by
        rcases hx with rfl | hx
        · exact this.2
        · exact hall x hx⟩
    · rintro ⟨ha, hall⟩
      refine ⟨?_, fun x hx => hall x (Or.inr hx)⟩
      rw [ha, hall b (Or.inl rfl)]
      rfl

theorem zipWith_xor_zero (lhs : List Nat) :
    ∀ rhs : List Nat, lhs.length = rhs.length →
      ((∀ x ∈ List.zipWith (fun a b => a ^^^ b) lhs rhs, x = 0) ↔ lhs = rhs) := by
  induction lhs with
  | nil =>
    intro rhs hlen
    cases rhs with
    | nil => simp
    | cons b rs => simp at hlen
  | cons a ls ih =>
    intro rhs hlen
    cases rhs with
    | nil => simp at hlen
    | cons b rs =>
      simp only [List.zipWith_cons_cons, List.mem_cons, List.cons.injEq]
      have hlen2 : ls.length = rs.length := by simpa using hlen
      constructor
      · intro hall
        have h1 : a ^^^ b = 0 := hall _ (Or.inl rfl)
        refine ⟨Nat.xor_eq_zero.mp h1, (ih rs hlen2).mp fun x hx => hall x (Or.inr hx)⟩
      · rintro ⟨rfl, rfl⟩
        intro x hx
        rcases hx with rfl | hx
        · exact Nat.xor_self a
        · exact ((ih ls rfl).mpr rfl) x hx

theorem fixed_time_equal_correct (lhs rhs : List Nat) (hlen : lhs.length = rhs.length) :
    hawkc_fixed_time_equal lhs rhs = if lhs = rhs then 1 else 0 := by
  unfold hawkc_fixed_time_equal
  by_cases h : lhs = rhs
  · rw [if_pos h, if_pos]
    rw [foldl_or_eq_zero]
    exact ⟨rfl, (zipWith_xor_zero lhs rhs hlen).mpr h⟩
  · rw [if_neg h, if_neg]
    rw [foldl_or_eq_zero]
    intro hc
    exact h ((zipWith_xor_zero lhs rhs hlen).mp hc.2)

theorem base64Encode_length : ∀ l : List Nat, (base64Encode l).length = base64EncodedLength l.length := by
  intro l
  induction l using base64Encode.induct with
  | case1 => rfl
  | case2 b1 => simp [base64Encode, base64EncodedLength]
  | case3 b1 b2 => simp [base64Encode, base64EncodedLength]
  | case4 b1 b2 b3 rest ih =>
    simp only [base64Encode, List.length_cons, ih, base64EncodedLength]
    omega

theorem tokenChar_not_ws (x : Nat) (h : isTokenChar x = true) : isWSChar x = false := by
  simp only [isTokenChar, decide_eq_true_eq] at h
  simp only [isWSChar, decide_eq_false_iff_not]
  rcases h with h | h | h | h
  · omega
  · omega
  · omega
  · simp at h
    omega

theorem takeWhile_append_stop (p : Nat → Bool) (k : List Nat) (c : Nat) (r : List Nat)
    (hk : ∀ x ∈ k, p x = true) (hc : p c = false) :
    (k ++ c :: r).takeWhile p = k ∧ (k ++ c :: r).dropWhile p = c :: r := by
  induction k with
  | nil => simp [List.takeWhile_cons, List.dropWhile_cons, hc]
  | cons a k ih =>
    have ha : p a = true := hk a (by simp)
    have ih2 := ih (fun x hx => hk x (by simp [hx]))
    simp [List.takeWhile_cons, List.dropWhile_cons, ha, ih2.1, ih2.2]

theorem skipWS_no_ws (s : List Nat) (h : ∀ c, s.head? = some c → isWSChar c = false) :
    skipWS s = s := by
  cases s with
  | nil => rfl
  | cons c r =>
    have := h c rfl
    simp [skipWS, List.dropWhile_cons, this]

theorem skipWS_cons_ws (c : Nat) (r : List Nat) (h : isWSChar c = true) :
    skipWS (c :: r) = skipWS r := by
  simp [skipWS, List.dropWhile_cons, h]

theorem quotedRest_cons (c : Nat) (cs : List Nat) :
    quotedRest (c :: cs) =
      if c = 34 then some ([], cs)
      else if c = 92 then
        (match cs with
          | [] => none
          | d :: ds => (quotedRest ds).map (fun vr => (92 :: d :: vr.1, vr.2)))
      else (quotedRest cs).map (fun vr => (c :: vr.1, vr.2)) := by
  cases cs <;> rfl

theorem quotedRest_emit (v : List Nat) (rest : List Nat) (hv : ∀ x ∈ v, x ≠ 34 ∧ x ≠ 92) :
    quotedRest (v ++ 34 :: rest) = some (v, rest) := by
  induction v with
  | nil =>
    rw [List.nil_append, quotedRest_cons, if_pos rfl]
  | cons x v ih =>
    have hx := hv x (by simp)
    have ih2 := ih (fun y hy => hv y (by simp [hy]))
    rw [List.cons_append, quotedRest_cons, if_neg hx.1, if_neg hx.2, ih2]
    rfl

theorem parseParam_emit (k v rest : List Nat) (hwf : ParamWF (k, v)) :
    parseParam (emitParam k v ++ rest) = some ((k, v), rest) := by
  obtain ⟨hk, hktok, hv⟩ := hwf
  have heq : emitParam k v ++ rest = k ++ 61 :: (34 :: (v ++ 34 :: rest)) := by
    simp [emitParam]
  rw [heq]
  have h61 : isTokenChar 61 = false := by decide
  have hsplit := takeWhile_append_stop isTokenChar k 61 (34 :: (v ++ 34 :: rest)) hktok h61
  have hws : skipWS (61 :: (34 :: (v ++ 34 :: rest))) = 61 :: (34 :: (v ++ 34 :: rest)) := by
    apply skipWS_no_ws
    intro c hc
    simp at hc
    subst hc
    decide
  have hws2 : skipWS (34 :: (v ++ 34 :: rest)) = 34 :: (v ++ 34 :: rest) := by
    apply skipWS_no_ws
    intro c hc
    simp at hc
    subst hc
    decide
  simp [parseParam, hsplit.1, hsplit.2, hws, hws2, hk, quotedRest_emit v rest hv]

theorem emitRest_length_ge (ps : List (List Nat × List Nat)) :
    ps.length ≤ (emitRest ps).length := by
  induction ps with
  | nil => simp [emitRest]
  | cons kv rest ih =>
    simp only [emitRest, List.length_cons, List.length_append]
    omega

theorem emitParam_head (k v : List Nat) (hk : k ≠ []) (hktok : ∀ x ∈ k, isTokenChar x = true) :
    ∀ c, (emitParam k v ++ emitRest ps).head? = some c → isWSChar c = false := by
  intro c hc
  cases k with
  | nil => exact absurd rfl hk
  | cons a kt =>
    simp [emitParam] at hc
    subst hc
    exact tokenChar_not_ws a (hktok a (by simp))

theorem parseParamsLoop_emit (ps : List (List Nat × List Nat)) :
    ∀ fuel, ps.length < fuel → ParamsWF ps → parseParamsLoop fuel (emitRest ps) = some ps := by
  induction ps with
  | nil =>
    intro fuel hfuel hwf
    cases fuel with
    | zero => omega
    | succ f => simp [parseParamsLoop, emitRest, skipWS]
  | cons kv rest ih =>
    intro fuel hfuel hwf
    cases fuel with
    | zero => simp at hfuel
    | succ f =>
      obtain ⟨k, v⟩ := kv
      have hwf1 : ParamWF (k, v) := hwf (k, v) (by simp)
      have hws : skipWS (emitRest ((k, v) :: rest)) = 44 :: 32 :: (emitParam k v ++ emitRest rest) := by
        apply skipWS_no_ws
        intro c hc
        simp [emitRest] at hc
        subst hc
        decide
      have hwsInner : skipWS (32 :: (emitParam k v ++ emitRest rest)) = emitParam k v ++ emitRest rest := by
        rw [skipWS_cons_ws 32 _ (by decide)]
        exact skipWS_no_ws _ (emitParam_head k v hwf1.1 hwf1.2.1)
      have hih := ih f (by simp at hfuel; omega) (fun x hx => hwf x (by simp [hx]))
      simp [parseParamsLoop, hws, hwsInner, parseParam_emit k v (emitRest rest) hwf1, hih]

theorem parse_auth_header_emit (scheme : List Nat) (ps : List (List Nat × List Nat))
    (hs : scheme ≠ []) (hstok : ∀ x ∈ scheme, isTokenChar x = true)
    (hne : ps ≠ []) (hwf : ParamsWF ps) :
    hawkc_parse_auth_header (emitHeader scheme ps) = some (scheme, ps) := by
  cases ps with
  | nil => exact absurd rfl hne
  | cons kv rest =>
    obtain ⟨k, v⟩ := kv
    have hwf1 : ParamWF (k, v) := hwf (k, v) (by simp)
    have heq : emitHeader scheme ((k, v) :: rest) = scheme ++ 32 :: (emitParam k v ++ emitRest rest) := rfl
    rw [heq]
    have hws0 : skipWS (scheme ++ 32 :: (emitParam k v ++ emitRest rest))
        = scheme ++ 32 :: (emitParam k v ++ emitRest rest) := by
      apply skipWS_no_ws
      intro c hc
      cases scheme with
      | nil => exact absurd rfl hs
      | cons a st =>
        simp at hc
        subst hc
        exact tokenChar_not_ws a (hstok a (by simp))
    have h32 : isTokenChar 32 = false := by decide
    have hsplit := takeWhile_append_stop isTokenChar scheme 32 (emitParam k v ++ emitRest rest) hstok h32
    have hwsInner : skipWS (32 :: (emitParam k v ++ emitRest rest)) = emitParam k v ++ emitRest rest := by
      rw [skipWS_cons_ws 32 _ (by decide)]
      exact skipWS_no_ws _ (emitParam_head k v hwf1.1 hwf1.2.1)
    have hloop := parseParamsLoop_emit rest ((emitRest rest).length + 1)
      (by have := emitRest_length_ge rest; omega) (fun x hx => hwf x (by simp [hx]))
    simp [hawkc_parse_auth_header, hws0, hsplit.1, hsplit.2, hs, hwsInner,
      parseParam_emit k v (emitRest rest) hwf1, hloop, isWSChar]

theorem ttoa_value_chars (t : Int) : ∀ x ∈ hawkc_ttoa t, x ≠ 34 ∧ x ≠ 92 := by
  intro x hx
  unfold hawkc_ttoa at hx
  by_cases h : t < 0
  · rw [if_pos h] at hx
    rcases List.mem_cons.mp hx with rfl | hx
    · omega
    · have := natDigits_mem t.natAbs x hx
      omega
  · rw [if_neg h] at hx
    have := natDigits_mem t.natAbs x hx
    omega

theorem mem_optParam (kv : List Nat × List Nat) (k v : List Nat) (h : kv ∈ optParam k v) :
    kv = (k, v) := by
  unfold optParam at h
  split at h
  · simp at h
  · simpa using h

theorem mem_authHeaderParams (h : AuthorizationHeader) (kv : List Nat × List Nat)
    (hkv : kv ∈ authHeaderParams h) :
    kv = (keyId, h.id) ∨ kv = (keyTs, hawkc_ttoa h.ts) ∨ kv = (keyNonce, h.nonce) ∨
    kv = (keyHash, h.hash) ∨ kv = (keyExt, h.ext) ∨ kv = (keyApp, h.app) ∨
    kv = (keyDlg, h.dlg) ∨ kv = (keyMac, h.mac) := by
  unfold authHeaderParams at hkv
  rcases List.mem_append.mp hkv with h5 | hMac
  rotate_left
  · simp at hMac
    tauto
  rcases List.mem_append.mp h5 with h4 | hDlg
  rotate_left
  · have := mem_optParam kv keyDlg h.dlg hDlg
    tauto
  rcases List.mem_append.mp h4 with h3 | hApp
  rotate_left
  · have := mem_optParam kv keyApp h.app hApp
    tauto
  rcases List.mem_append.mp h3 with h2 | hExt
  rotate_left
  · have := mem_optParam kv keyExt h.ext hExt
    tauto
  rcases List.mem_append.mp h2 with h1 | hHash
  rotate_left
  · have := mem_optParam kv keyHash h.hash hHash
    tauto
  simp at h1
  tauto

theorem authHeaderParams_wf (h : AuthorizationHeader) (hwf : AuthBagWF h) :
    ParamsWF (authHeaderParams h) := by
  obtain ⟨hid, hmac, hnonce, wid, wmac, whash, wnonce, wapp, wdlg, wext, hts⟩ := hwf
  intro kv hkv
  have hval : ∀ v : List Nat, ValueWF v → ∀ x ∈ v, x ≠ 34 ∧ x ≠ 92 := by
    intro v hv x hx
    have := hv x hx
    exact ⟨this.2.2.1, this.2.2.2⟩
  rcases mem_authHeaderParams h kv hkv with rfl | rfl | rfl | rfl | rfl | rfl | rfl | rfl
  · exact ⟨by simp [keyId], by intro x hx; fin_cases hx <;> decide, hval _ wid⟩
  · exact ⟨by simp [keyTs], by intro x hx; fin_cases hx <;> decide, ttoa_value_chars h.ts⟩
  · exact ⟨by simp [keyNonce], by intro x hx; fin_cases hx <;> decide, hval _ wnonce⟩
  · exact ⟨by simp [keyHash], by intro x hx; fin_cases hx <;> decide, hval _ whash⟩
  · exact ⟨by simp [keyExt], by intro x hx; fin_cases hx <;> decide, hval _ wext⟩
  · exact ⟨by simp [keyApp], by intro x hx; fin_cases hx <;> decide, hval _ wapp⟩
  · exact ⟨by simp [keyDlg], by intro x hx; fin_cases hx <;> decide, hval _ wdlg⟩
  · exact ⟨by simp [keyMac], by intro x hx; fin_cases hx <;> decide, hval _ wmac⟩

theorem processAuthParams_serialize (h : AuthorizationHeader) (hts : isTimeT h.ts) :
    processAuthParams (authHeaderParams h) = .ok (h, true) := by
  obtain ⟨id, mac, hash, nonce, ts, app, dlg, ext⟩ := h
  simp only [isTimeT] at hts
  by_cases hh : hash = [] <;> by_cases he : ext = [] <;>
    by_cases ha : app = [] <;> by_cases hd : dlg = [] <;>
    simp [processAuthParams, authHeaderParams, optParam, applyAuthParam, hh, he, ha, hd,
      parse_time_ttoa ts ⟨hts.1, hts.2⟩, emptyAuthorizationHeader,
      bind, Except.bind, Except.map, pure, Except.pure,
      keyId, keyTs, keyNonce, keyMac, keyHash, keyApp, keyDlg, keyExt]

theorem emitParam_length (k v : List Nat) : (emitParam k v).length = k.length + v.length + 3 := by
  simp [emitParam]
  omega

theorem emitRest_length (ps : List (List Nat × List Nat)) :
    (emitRest ps).length = (ps.map (fun kv => kv.1.length + kv.2.length + 5)).sum := by
  induction ps with
  | nil => simp [emitRest]
  | cons kv rest ih =>
    simp only [emitRest, List.length_cons, List.length_append, emitParam_length, ih,
      List.map_cons, List.sum_cons]
    omega

theorem serializeAuthorizationHeader_length (h : AuthorizationHeader) :
    (serializeAuthorizationHeader h).length =
      35 + h.id.length + (hawkc_ttoa h.ts).length + h.nonce.length + h.mac.length
        + (if h.hash = [] then 0 else 9 + h.hash.length)
        + (if h.ext = [] then 0 else 8 + h.ext.length)
        + (if h.app = [] then 0 else 8 + h.app.length)
        + (if h.dlg = [] then 0 else 8 + h.dlg.length) := by
  by_cases hh : h.hash = [] <;> by_cases he : h.ext = [] <;>
    by_cases ha : h.app = [] <;> by_cases hd : h.dlg = [] <;>
    simp [serializeAuthorizationHeader, authHeaderParams, optParam, emitHeader, emitRest,
      emitParam_length, emitRest_length, hh, he, ha, hd, hawkSchemeBytes,
      keyId, keyTs, keyNonce, keyMac, keyHash, keyApp, keyDlg, keyExt, emitParam] <;>
    omega

theorem create_authorization_header_exact (ctx : HawkcContext) (now : Int)
    (hmacFn : List Nat → List Nat → List Nat)
    (hlen : ∀ key msg, (hmacFn key msg).length = hawkc_mac_bytes ctx.algorithm) :
    hawkc_calculate_authorization_header_length ctx now =
      (hawkc_create_authorization_header ctx now hmacFn).length := by
  unfold hawkc_create_authorization_header hawkc_calculate_authorization_header_length
  rw [serializeAuthorizationHeader_length]
  simp [base64Encode_length, hlen, hawkc_ttoa_length]
  omega

theorem create_www_authenticate_header_exact (ctx : HawkcContext)
    (hmacFn : List Nat → List Nat → List Nat)
    (hlen : ∀ key msg, (hmacFn key msg).length = hawkc_mac_bytes ctx.algorithm) :
    hawkc_calculate_www_authenticate_header_length ctx =
      (hawkc_create_www_authenticate_header ctx hmacFn).length := by
  unfold hawkc_create_www_authenticate_header hawkc_calculate_www_authenticate_header_length
  simp [emitHeader, emitRest, emitParam_length, base64Encode_length, hlen, hawkc_ttoa_length,
    hawkSchemeBytes, keyTs, keyTsm, emitParam]
  omega

theorem applyAuthParam_preserve {st st' : AuthorizationHeader × Bool} {kv : List Nat × List Nat}
    (h : applyAuthParam st kv = .ok st') :
    (kv.1 ≠ keyId → st'.1.id = st.1.id) ∧ (kv.1 ≠ keyMac → st'.1.mac = st.1.mac) ∧
    (kv.1 ≠ keyNonce → st'.1.nonce = st.1.nonce) ∧ (kv.1 ≠ keyTs → st'.2 = st.2) := by
  unfold applyAuthParam at h
  split_ifs at h with h1 h2 h3 h4 h5 h6 h7 h8
  · simp only [Except.ok.injEq] at h
    subst h
    simp_all
  · simp only [Except.ok.injEq] at h
    subst h
    simp_all
  · simp only [Except.ok.injEq] at h
    subst h
    simp_all
  · simp only [Except.ok.injEq] at h
    subst h
    simp_all
  · simp only [Except.ok.injEq] at h
    subst h
    simp_all
  · simp only [Except.ok.injEq] at h
    subst h
    simp_all
  · simp only [Except.ok.injEq] at h
    subst h
    simp_all
  · cases hp : parse_time kv.2 with
    | error e =>
      rw [hp] at h
      simp [Except.map] at h
    | ok t =>
      rw [hp] at h
      simp only [Except.map, Except.ok.injEq] at h
      subst h
      simp_all
  · simp only [Except.ok.injEq] at h
    subst h
    simp_all

theorem foldAuthParams_preserve (ps : List (List Nat × List Nat)) :
    ∀ st st', List.foldlM applyAuthParam st ps = .ok st' →
      ((∀ kv ∈ ps, kv.1 ≠ keyId) → st'.1.id = st.1.id) ∧
      ((∀ kv ∈ ps, kv.1 ≠ keyMac) → st'.1.mac = st.1.mac) ∧
      ((∀ kv ∈ ps, kv.1 ≠ keyNonce) → st'.1.nonce = st.1.nonce) ∧
      ((∀ kv ∈ ps, kv.1 ≠ keyTs) → st'.2 = st.2) := by
  induction ps with
  | nil =>
    intro st st' h
    simp only [List.foldlM_nil] at h
    cases h
    simp
  | cons kv ps ih =>
    intro st st' h
    rw [List.foldlM_cons] at h
    cases hstep : applyAuthParam st kv with
    | error e =>
      rw [hstep] at h
      simp [bind, Except.bind] at h
    | ok st1 =>
      rw [hstep] at h
      simp only [bind, Except.bind] at h
      have hp := applyAuthParam_preserve hstep
      have hi := ih st1 st' h
      refine ⟨?_, ?_, ?_, ?_⟩
      · intro hall
        rw [hi.1 (fun x hx => hall x (by simp [hx])), hp.1 (hall kv (by simp))]
      · intro hall
        rw [hi.2.1 (fun x hx => hall x (by simp [hx])), hp.2.1 (hall kv (by simp))]
      · intro hall
        rw [hi.2.2.1 (fun x hx => hall x (by simp [hx])), hp.2.2.1 (hall kv (by simp))]
      · intro hall
        rw [hi.2.2.2 (fun x hx => hall x (by simp [hx])), hp.2.2.2 (hall kv (by simp))]

theorem applyAuthParam_unknown (st : AuthorizationHeader × Bool) (kv : List Nat × List Nat)
    (h : kv.1 ∉ knownKeys) : applyAuthParam st kv = .ok st := by
  simp only [knownKeys, List.mem_cons, List.not_mem_nil, or_false, not_or] at h
  unfold applyAuthParam
  rw [if_neg h.1, if_neg h.2.1, if_neg h.2.2.1, if_neg h.2.2.2.1, if_neg h.2.2.2.2.1,
    if_neg h.2.2.2.2.2.1, if_neg h.2.2.2.2.2.2.1, if_neg h.2.2.2.2.2.2.2]

theorem foldAuthParams_insert_unknown (k v : List Nat) (hk : k ∉ knownKeys)
    (ps2 : List (List Nat × List Nat)) :
    ∀ (ps1 : List (List Nat × List Nat)) (st : AuthorizationHeader × Bool),
      List.foldlM applyAuthParam st (ps1 ++ (k, v) :: ps2) =
        List.foldlM applyAuthParam st (ps1 ++ ps2) := by
  intro ps1
  induction ps1 with
  | nil =>
    intro st
    simp only [List.nil_append, List.foldlM_cons, applyAuthParam_unknown st (k, v) hk]
    simp [bind, Except.bind]
  | cons a ps1 ih =>
    intro st
    simp only [List.cons_append, List.foldlM_cons]
    cases hstep : applyAuthParam st a with
    | error e => simp [bind, Except.bind]
    | ok st1 => simp [bind, Except.bind, ih st1]

theorem processAuthParams_insert_unknown (k v : List Nat) (hk : k ∉ knownKeys)
    (ps1 ps2 : List (List Nat × List Nat)) :
    processAuthParams (ps1 ++ (k, v) :: ps2) = processAuthParams (ps1 ++ ps2) :=
  foldAuthParams_insert_unknown k v hk ps2 ps1 _

/-- Claim C1: the request base string built by hawkc_create_base_string
is exactly the LF-terminated lines hawk.1.header, ts in decimal, nonce,
method, path, host lowercased, port, hash (empty line if unset), ext
(empty line if unset), each line ending in LF including the last, with
two further LF-terminated lines app and dlg-or-empty when app is
non-empty; host is lowercased, method is used exactly as supplied, and
missing optional fields contribute an empty line. -/
theorem claim_C1_request_base_string (ctx : HawkcContext) (h : AuthorizationHeader) :
    hawkc_create_base_string ctx h =
      headerTag ++ [10] ++ hawkc_ttoa h.ts ++ [10] ++ h.nonce ++ [10] ++ ctx.method ++ [10]
        ++ ctx.path ++ [10] ++ ctx.host.map asciiLower ++ [10] ++ ctx.port ++ [10]
        ++ h.hash ++ [10] ++ h.ext ++ [10]
        ++ (if h.app = [] then [] else h.app ++ [10] ++ h.dlg ++ [10]) ∧
    tsDenote (hawkc_ttoa h.ts) = h.ts :=
  ⟨create_base_string_concat ctx h, tsDenote_ttoa h.ts⟩

/-- Claim C2: for equal-length byte sequences the fixed-time comparator
returns 1 exactly when they are byte-wise equal (it agrees with the
naive compare), and MAC validation returns false whenever the received
and computed MAC slices have unequal lengths. -/
theorem claim_C2_fixed_time_equal :
    (∀ lhs rhs : List Nat, lhs.length = rhs.length →
      hawkc_fixed_time_equal lhs rhs = (if lhs = rhs then 1 else 0)) ∧
    (∀ received computed : List Nat, received.length ≠ computed.length →
      hawkc_validate_mac received computed = false) := by
  refine ⟨fixed_time_equal_correct, ?_⟩
  intro received computed hne
  simp [hawkc_validate_mac, hne]

/-- Witness for claim C2 at concrete inputs. -/
theorem claim_C2_witness :
    hawkc_fixed_time_equal [1, 2] [1, 2] = 1 ∧ hawkc_fixed_time_equal [1, 2] [2, 1] = 0 ∧
      hawkc_validate_mac [1] [] = false :=
  ⟨(claim_C2_fixed_time_equal.1 [1, 2] [1, 2] rfl).trans (by decide),
    (claim_C2_fixed_time_equal.1 [1, 2] [2, 1] rfl).trans (by decide),
    claim_C2_fixed_time_equal.2 [1] [] (by decide)⟩

/-- Claim C5: base string construction fails with
HAWKC_REQUIRED_BUFFER_TOO_LARGE exactly when the required length
exceeds MAX_DYN_BASE_BUFFER_SIZE = 2048; lengths up to
BASE_BUFFER_SIZE = 512 use the static buffer, and lengths from 513 to
2048 use a dynamically allocated buffer and succeed. -/
theorem claim_C5_buffer_policy (ctx : HawkcContext) (h : AuthorizationHeader) :
    (baseStringBufferPlan (hawkc_calculate_base_string_length ctx h) =
        .error .HAWKC_REQUIRED_BUFFER_TOO_LARGE ↔
      MAX_DYN_BASE_BUFFER_SIZE < hawkc_calculate_base_string_length ctx h) ∧
    (hawkc_calculate_base_string_length ctx h ≤ BASE_BUFFER_SIZE →
      baseStringBufferPlan (hawkc_calculate_base_string_length ctx h) = .ok .staticBuf) ∧
    (BASE_BUFFER_SIZE < hawkc_calculate_base_string_length ctx h →
      hawkc_calculate_base_string_length ctx h ≤ MAX_DYN_BASE_BUFFER_SIZE →
      baseStringBufferPlan (hawkc_calculate_base_string_length ctx h) = .ok .dynamicBuf) := by
  set n := hawkc_calculate_base_string_length ctx h with hn
  unfold baseStringBufferPlan
  unfold BASE_BUFFER_SIZE MAX_DYN_BASE_BUFFER_SIZE
  refine ⟨?_, ?_, ?_⟩
  · split_ifs with h1 h2 <;> simp <;> omega
  · intro h1
    rw [if_pos (by omega)]
  · intro h1 h2
    rw [if_neg (by omega), if_pos (by omega)]

/-- Witness for claim C5: a 3000-byte path makes the required base
string length exceed the 2048-byte cap and construction fails with
HAWKC_REQUIRED_BUFFER_TOO_LARGE. -/
theorem claim_C5_witness :
    baseStringBufferPlan (hawkc_calculate_base_string_length
        ⟨0, ⟨sha256Name⟩, [], [], List.replicate 3000 97, [], [],
          emptyAuthorizationHeader, emptyAuthorizationHeader, ⟨0, []⟩, []⟩
        emptyAuthorizationHeader) = .error .HAWKC_REQUIRED_BUFFER_TOO_LARGE ∧
    baseStringBufferPlan (hawkc_calculate_base_string_length
        ⟨0, ⟨sha256Name⟩, [], [], List.replicate 489 97, [], [],
          emptyAuthorizationHeader, emptyAuthorizationHeader, ⟨0, []⟩, []⟩
        emptyAuthorizationHeader) = .ok .staticBuf ∧
    baseStringBufferPlan (hawkc_calculate_base_string_length
        ⟨0, ⟨sha256Name⟩, [], [], List.replicate 490 97, [], [],
          emptyAuthorizationHeader, emptyAuthorizationHeader, ⟨0, []⟩, []⟩
        emptyAuthorizationHeader) = .ok .dynamicBuf :=
  ⟨(claim_C5_buffer_policy _ _).1.mpr (by
      rw [hawkc_calculate_base_string_length, List.length_replicate]
      norm_num [hawkc_number_of_digits, digitCountAux, emptyAuthorizationHeader,
        MAX_DYN_BASE_BUFFER_SIZE]),
    (claim_C5_buffer_policy _ _).2.1 (by
      rw [hawkc_calculate_base_string_length, List.length_replicate]
      norm_num [hawkc_number_of_digits, digitCountAux, emptyAuthorizationHeader,
        BASE_BUFFER_SIZE]),
    (claim_C5_buffer_policy _ _).2.2 (by
      rw [hawkc_calculate_base_string_length, List.length_replicate]
      norm_num [hawkc_number_of_digits, digitCountAux, emptyAuthorizationHeader,
        BASE_BUFFER_SIZE]) (by
      rw [hawkc_calculate_base_string_length, List.length_replicate]
      norm_num [hawkc_number_of_digits, digitCountAux, emptyAuthorizationHeader,
        MAX_DYN_BASE_BUFFER_SIZE])⟩

/-- Counterexample to claim C6 as stated: the algorithm record of the
source (struct HawkcAlgorithm, src/hawkc/common.h lines 21-23) carries
only a name, so it is determined by its name alone, while a record
shaped name, hmac_id, mac_bytes as the claim describes is not: the two
spec-shaped records below share a name but differ in mac_bytes. -/
theorem claim_C6_counterexample :
    (∀ a b : HawkcAlgorithm, a.name = b.name → a = b) ∧
    ¬(∀ a b : SpecAlgorithmRecord, a.name = b.name → a = b) := by
  constructor
  · intro a b hab
    cases a
    cases b
    cases hab
    rfl
  · intro hall
    have := hall ⟨[], 0, 32⟩ ⟨[], 0, 20⟩ rfl
    simp at this

/-- Claim C6 as amended: an algorithm record carries a name; the two
predefined instances are sha256 and sha1; hawkc_algorithm_by_name
returns the record whose name matches the given name exactly and
case-sensitively and none for every other name; and the MAC output
length is derived from the algorithm by the crypto layer (32 bytes for
SHA-256, 20 for SHA-1, both within MAX_HMAC_BYTES), not stored in the
record. -/
theorem claim_C6_algorithm_registry :
    (∀ n, hawkc_algorithm_by_name n = some HAWKC_SHA_256 ↔ n = sha256Name) ∧
    (∀ n, hawkc_algorithm_by_name n = some HAWKC_SHA_1 ↔ n = sha1Name) ∧
    (∀ n a, hawkc_algorithm_by_name n = some a → a.name = n) ∧
    (∀ n, n ≠ sha256Name → n ≠ sha1Name → hawkc_algorithm_by_name n = none) ∧
    hawkc_mac_bytes HAWKC_SHA_256 = 32 ∧ hawkc_mac_bytes HAWKC_SHA_1 = 20 ∧
    (∀ n a, hawkc_algorithm_by_name n = some a → hawkc_mac_bytes a ≤ MAX_HMAC_BYTES) ∧
    hawkc_algorithm_by_name [83, 72, 65, 50, 53, 54] = none := by
  refine ⟨?_, ?_, ?_, ?_, by decide, by decide, ?_, by decide⟩
  · intro n
    unfold hawkc_algorithm_by_name
    split_ifs with h1 h2 <;> simp_all [HAWKC_SHA_256, HAWKC_SHA_1, sha256Name, sha1Name]
  · intro n
    unfold hawkc_algorithm_by_name
    split_ifs with h1 h2 <;> simp_all [HAWKC_SHA_256, HAWKC_SHA_1, sha256Name, sha1Name]
  · intro n a
    unfold hawkc_algorithm_by_name
    split_ifs with h1 h2
    · intro h
      simp only [Option.some.injEq] at h
      subst h
      rw [h1]
      rfl
    · intro h
      simp only [Option.some.injEq] at h
      subst h
      rw [h2]
      rfl
    · intro h
      simp at h
  · intro n h1 h2
    unfold hawkc_algorithm_by_name
    rw [if_neg h1, if_neg h2]
  · intro n a
    unfold hawkc_algorithm_by_name
    split_ifs with h1 h2
    · intro h
      simp only [Option.some.injEq] at h
      subst h
      decide
    · intro h
      simp only [Option.some.injEq] at h
      subst h
      decide
    · intro h
      simp at h

/-- Witness for the amended claim C6 at concrete names. -/
theorem claim_C6_witness :
    hawkc_algorithm_by_name [109, 100, 53] = none ∧
      hawkc_algorithm_by_name sha256Name = some HAWKC_SHA_256 :=
  ⟨claim_C6_algorithm_registry.2.2.2.1 [109, 100, 53] (by decide) (by decide),
    (claim_C6_algorithm_registry.1 sha256Name).mpr rfl⟩

/-- Claim C7: parse_time parses the ts parameter as a signed decimal
integer; on a well-formed decimal string whose value overflows the
modelled time_t it returns HAWKC_OVERFLOW_ERROR, on any string with a
character that is not a decimal digit beyond a single leading sign it
returns HAWKC_TIME_VALUE_ERROR, and otherwise it returns exactly the
mathematical integer denoted by the string. -/
theorem claim_C7_parse_time :
    (∀ s, TsWellFormed s →
      (isTimeT (tsDenote s) → parse_time s = .ok (tsDenote s)) ∧
      (¬ isTimeT (tsDenote s) → parse_time s = .error .HAWKC_OVERFLOW_ERROR)) ∧
    (∀ s, ¬ TsWellFormed s → parse_time s = .error .HAWKC_TIME_VALUE_ERROR) :=
  ⟨parse_time_wf, parse_time_malformed⟩

/-- Witness for claim C7: the string 123 parses to 123, the string 12a
fails with HAWKC_TIME_VALUE_ERROR, and the decimal rendering of 2 to
the 63rd fails with HAWKC_OVERFLOW_ERROR. -/
theorem claim_C7_witness :
    parse_time [49, 50, 51] = .ok 123 ∧
      parse_time [49, 50, 97] = .error .HAWKC_TIME_VALUE_ERROR ∧
      parse_time [57, 50, 50, 51, 51, 55, 50, 48, 51, 54, 56, 53, 52, 55, 55, 53, 56, 48, 56] =
        .error .HAWKC_OVERFLOW_ERROR := by
  refine ⟨?_, ?_, ?_⟩
  · have h := (claim_C7_parse_time.1 [49, 50, 51]
      ⟨[], [49, 50, 51], Or.inl rfl, by decide, by decide, rfl⟩).1 (by decide)
    rw [h]
    exact congrArg Except.ok (by decide)
  · apply claim_C7_parse_time.2
    rintro ⟨sign, ds, hsign, hne, hds, heq⟩
    rcases hsign with rfl | rfl | rfl
    · rw [List.nil_append] at heq
      have := hds 97 (by rw [← heq]; decide)
      omega
    · simp at heq
    · simp at heq
  · exact (claim_C7_parse_time.1 _
      ⟨[], [57, 50, 50, 51, 51, 55, 50, 48, 51, 54, 56, 53, 52, 55, 55, 53, 56, 48, 56],
        Or.inl rfl, by decide, by decide, rfl⟩).2 (by decide)

/-- Claim C9: hawkc_ttoa writes the decimal representation of a time_t
value with a leading minus sign exactly when the value is negative and
its output size equals hawkc_number_of_digits plus one for the sign of
a negative value; hawkc_number_of_digits is the decimal digit count of
the value. -/
theorem claim_C9_ttoa (t : Int) :
    (hawkc_ttoa t).length = hawkc_number_of_digits t + (if t < 0 then 1 else 0) ∧
    tsDenote (hawkc_ttoa t) = t ∧
    ((hawkc_ttoa t).head? = some 45 ↔ t < 0) ∧
    hawkc_number_of_digits t = Nat.log 10 t.natAbs + 1 := by
  refine ⟨hawkc_ttoa_length t, tsDenote_ttoa t, ?_, digitCount_eq_log t.natAbs⟩
  unfold hawkc_ttoa
  by_cases h : t < 0
  · simp [h]
  · rw [if_neg h]
    cases hnd : natDigits t.natAbs with
    | nil => exact absurd hnd (natDigits_ne_nil t.natAbs)
    | cons d ds =>
      have hd := natDigits_mem t.natAbs d (by rw [hnd]; simp)
      simp only [List.head?_cons, Option.some.injEq]
      constructor
      · intro hc
        omega
      · intro hc
        exact absurd hc h

/-- Counterexample to claim C10 as stated: at the representable time_t
value minus 2 to the 63rd the timestamp base string is 31 bytes long
and does not fit the 30-byte TS_BASE_BUFFER_SIZE buffer. -/
theorem claim_C10_counterexample :
    (hawkc_create_ts_base_string ⟨-(2 ^ 63), []⟩).length = 31 ∧
      isTimeT (-(2 ^ 63)) ∧ TS_BASE_BUFFER_SIZE < 31 := by
  refine ⟨?_, by decide, by decide⟩
  decide

/-- Claim C10 as amended: the timestamp base string has length 11 plus
the character count of the decimal rendering of ts, and it fits the
30-byte TS_BASE_BUFFER_SIZE buffer for every nonnegative time_t value
and for every negative value above minus 10 to the 18th; extreme
negative values (ts at or below minus 10 to the 18th) exceed the
buffer. -/
theorem claim_C10_ts_base_string (h : WwwAuthenticateHeader) :
    (hawkc_create_ts_base_string h).length = 11 + (hawkc_ttoa h.ts).length ∧
    (0 ≤ h.ts → h.ts ≤ TIME_T_MAX →
      (hawkc_create_ts_base_string h).length ≤ TS_BASE_BUFFER_SIZE) ∧
    (-(10 ^ 18) < h.ts → h.ts < 0 →
      (hawkc_create_ts_base_string h).length ≤ TS_BASE_BUFFER_SIZE) := by
  refine ⟨create_ts_base_string_length h, ?_, ?_⟩
  · intro h0 hmax
    rw [create_ts_base_string_length, hawkc_ttoa_length]
    have hlog : hawkc_number_of_digits h.ts ≤ 19 := by
      unfold hawkc_number_of_digits
      rw [digitCount_eq_log]
      by_cases hz : h.ts.natAbs = 0
      · rw [hz]
        simp
      · have hlt : h.ts.natAbs < 10 ^ 19 := by
          have : (h.ts.natAbs : Int) = h.ts := Int.natAbs_of_nonneg h0 ▸ rfl
          unfold TIME_T_MAX at hmax
          omega
        have := (Nat.lt_pow_iff_log_lt (by omega) hz).mp hlt
        omega
    rw [if_neg (by omega)]
    unfold TS_BASE_BUFFER_SIZE
    omega
  · intro hlow hneg
    rw [create_ts_base_string_length, hawkc_ttoa_length]
    have hlog : hawkc_number_of_digits h.ts ≤ 18 := by
      unfold hawkc_number_of_digits
      rw [digitCount_eq_log]
      by_cases hz : h.ts.natAbs = 0
      · rw [hz]
        simp
      · have hlt : h.ts.natAbs < 10 ^ 18 := by omega
        have := (Nat.lt_pow_iff_log_lt (by omega) hz).mp hlt
        omega
    rw [if_pos hneg]
    unfold TS_BASE_BUFFER_SIZE
    omega

/-- Witness for the amended claim C10 at the sample timestamp of the
spec. -/
theorem claim_C10_witness :
    (hawkc_create_ts_base_string ⟨1353832234, []⟩).length ≤ TS_BASE_BUFFER_SIZE :=
  (claim_C10_ts_base_string ⟨1353832234, []⟩).2.1 (by decide) (by decide)

/-- Claim C3: for every AuthorizationFields bag with well-formed
printable values containing no double quote and no backslash (and its
required fields present and ts representable), parsing the header
emitted from the bag returns exactly the bag, field by field. -/
theorem claim_C3_roundtrip (h : AuthorizationHeader) (hwf : AuthBagWF h) :
    hawkc_parse_authorization_header (serializeAuthorizationHeader h) = .ok h := by
  have hps := authHeaderParams_wf h hwf
  have hne : authHeaderParams h ≠ [] := by simp [authHeaderParams]
  have hparse := parse_auth_header_emit hawkSchemeBytes (authHeaderParams h)
    (by decide) (by decide) hne hps
  have hproc := processAuthParams_serialize h hwf.2.2.2.2.2.2.2.2.2.2
  obtain ⟨hid, hmac, hnonce, _, _, _, _, _, _, _, _⟩ := hwf
  simp [hawkc_parse_authorization_header, serializeAuthorizationHeader, hparse, hproc,
    hid, hmac, hnonce]

/-- Witness for claim C3 at two concrete bags: one with the optional
fields unset, one with hash, ext, app and dlg populated and a negative
timestamp. -/
theorem claim_C3_witness :
    hawkc_parse_authorization_header (serializeAuthorizationHeader
        ⟨[100, 104], [109, 97, 99, 49], [], [106, 52, 104], 1353832234, [], [], [100, 97, 116, 97]⟩) =
      .ok ⟨[100, 104], [109, 97, 99, 49], [], [106, 52, 104], 1353832234, [], [], [100, 97, 116, 97]⟩ ∧
    hawkc_parse_authorization_header (serializeAuthorizationHeader
        ⟨[100], [109], [104, 49], [110], -42, [97, 112], [100, 108], [101, 120]⟩) =
      .ok ⟨[100], [109], [104, 49], [110], -42, [97, 112], [100, 108], [101, 120]⟩ :=
  ⟨claim_C3_roundtrip _ (by
      refine ⟨by decide, by decide, by decide, ?_, ?_, ?_, ?_, ?_, ?_, ?_, by decide⟩ <;>
        (intro x hx; fin_cases hx <;> decide)),
    claim_C3_roundtrip _ (by
      refine ⟨by decide, by decide, by decide, ?_, ?_, ?_, ?_, ?_, ?_, ?_, by decide⟩ <;>
        (intro x hx; fin_cases hx <;> decide))⟩

theorem parse_authorization_eq_some (s scheme : List Nat) (ps : List (List Nat × List Nat))
    (hparse : hawkc_parse_auth_header s = some (scheme, ps)) :
    hawkc_parse_authorization_header s =
      (if scheme = hawkSchemeBytes then
        match processAuthParams ps with
        | .error e => .error e
        | .ok (h, hasTs) =>
          if h.id ≠ [] ∧ h.mac ≠ [] ∧ h.nonce ≠ [] ∧ hasTs = true then .ok h
          else .error .HAWKC_PARSE_ERROR
      else .error .HAWKC_BAD_SCHEME_ERROR) := by
  unfold hawkc_parse_authorization_header
  rw [hparse]

theorem parse_authorization_eq_proc (s : List Nat) (ps : List (List Nat × List Nat))
    (bag : AuthorizationHeader) (hasTs : Bool)
    (hparse : hawkc_parse_auth_header s = some (hawkSchemeBytes, ps))
    (hproc : processAuthParams ps = .ok (bag, hasTs)) :
    hawkc_parse_authorization_header s =
      (if bag.id ≠ [] ∧ bag.mac ≠ [] ∧ bag.nonce ≠ [] ∧ hasTs = true then .ok bag
      else .error .HAWKC_PARSE_ERROR) := by
  rw [parse_authorization_eq_some s _ ps hparse, if_pos rfl, hproc]

/-- Claim C4: hawkc_parse_authorization_header succeeds only when the
parsed parameter list contains the required keys id, mac, nonce and ts;
when the parameter dispatch succeeds but a required key is absent it
returns HAWKC_PARSE_ERROR; and a parameter with an unrecognized key is
ignored, parsing a header with it giving the same result as parsing
the same header without it. -/
theorem claim_C4_required_and_unknown :
    (∀ s scheme ps h, hawkc_parse_auth_header s = some (scheme, ps) →
      hawkc_parse_authorization_header s = .ok h →
      hasKey ps keyId ∧ hasKey ps keyMac ∧ hasKey ps keyNonce ∧ hasKey ps keyTs) ∧
    (∀ s ps st, hawkc_parse_auth_header s = some (hawkSchemeBytes, ps) →
      processAuthParams ps = .ok st →
      (¬ hasKey ps keyId ∨ ¬ hasKey ps keyMac ∨ ¬ hasKey ps keyNonce ∨ ¬ hasKey ps keyTs) →
      hawkc_parse_authorization_header s = .error .HAWKC_PARSE_ERROR) ∧
    (∀ k v ps1 ps2, k ∉ knownKeys → ParamsWF (ps1 ++ (k, v) :: ps2) →
      hawkc_parse_authorization_header (emitHeader hawkSchemeBytes (ps1 ++ (k, v) :: ps2)) =
        hawkc_parse_authorization_header (emitHeader hawkSchemeBytes (ps1 ++ ps2))) := by
  refine ⟨?_, ?_, ?_⟩
  · intro s scheme ps h hparse hok
    by_cases hsch : scheme = hawkSchemeBytes
    rotate_left
    · rw [parse_authorization_eq_some s scheme ps hparse, if_neg hsch] at hok
      simp at hok
    subst hsch
    cases hproc : processAuthParams ps with
    | error e =>
      rw [parse_authorization_eq_some s _ ps hparse, if_pos rfl, hproc] at hok
      simp at hok
    | ok st =>
      obtain ⟨bag, hasTs⟩ := st
      rw [parse_authorization_eq_proc s ps bag hasTs hparse hproc] at hok
      unfold processAuthParams at hproc
      have hpres := foldAuthParams_preserve ps (emptyAuthorizationHeader, false) (bag, hasTs) hproc
      split at hok
      rotate_left
      · simp at hok
      rename_i hcond
      refine ⟨?_, ?_, ?_, ?_⟩
      · by_contra hno
        simp only [hasKey, not_exists] at hno
        have : bag.id = emptyAuthorizationHeader.id := hpres.1 (fun kv hkv heq => hno kv ⟨hkv, heq⟩)
        exact hcond.1 (by simpa [emptyAuthorizationHeader] using this)
      · by_contra hno
        simp only [hasKey, not_exists] at hno
        have : bag.mac = emptyAuthorizationHeader.mac := hpres.2.1 (fun kv hkv heq => hno kv ⟨hkv, heq⟩)
        exact hcond.2.1 (by simpa [emptyAuthorizationHeader] using this)
      · by_contra hno
        simp only [hasKey, not_exists] at hno
        have : bag.nonce = emptyAuthorizationHeader.nonce := hpres.2.2.1 (fun kv hkv heq => hno kv ⟨hkv, heq⟩)
        exact hcond.2.2.1 (by simpa [emptyAuthorizationHeader] using this)
      · by_contra hno
        simp only [hasKey, not_exists] at hno
        have : hasTs = false := hpres.2.2.2 (fun kv hkv heq => hno kv ⟨hkv, heq⟩)
        rw [hcond.2.2.2] at this
        simp at this
  · intro s ps st hparse hproc hmiss
    obtain ⟨bag, hasTs⟩ := st
    rw [parse_authorization_eq_proc s ps bag hasTs hparse hproc]
    have hpres := foldAuthParams_preserve ps (emptyAuthorizationHeader, false) (bag, hasTs)
      (by unfold processAuthParams at hproc; exact hproc)
    split
    rotate_left
    · rfl
    rename_i hcond
    exfalso
    rcases hmiss with hno | hno | hno | hno <;> simp only [hasKey, not_exists] at hno
    · have : bag.id = emptyAuthorizationHeader.id := hpres.1 (fun kv hkv heq => hno kv ⟨hkv, heq⟩)
      exact hcond.1 (by simpa [emptyAuthorizationHeader] using this)
    · have : bag.mac = emptyAuthorizationHeader.mac := hpres.2.1 (fun kv hkv heq => hno kv ⟨hkv, heq⟩)
      exact hcond.2.1 (by simpa [emptyAuthorizationHeader] using this)
    · have : bag.nonce = emptyAuthorizationHeader.nonce := hpres.2.2.1 (fun kv hkv heq => hno kv ⟨hkv, heq⟩)
      exact hcond.2.2.1 (by simpa [emptyAuthorizationHeader] using this)
    · have : hasTs = false := hpres.2.2.2 (fun kv hkv heq => hno kv ⟨hkv, heq⟩)
      rw [hcond.2.2.2] at this
      simp at this
  · intro k v ps1 ps2 hk hwfAll
    by_cases hne : ps1 ++ ps2 = []
    · obtain ⟨h1, h2⟩ := List.append_eq_nil.mp hne
      subst h1
      subst h2
      have hwf1 : ParamsWF [(k, v)] := by
        intro kv hkv
        exact hwfAll kv (by simpa using hkv)
      have hparse := parse_auth_header_emit hawkSchemeBytes [(k, v)]
        (by decide) (by decide) (by simp) hwf1
      have hprocKV : processAuthParams [(k, v)] = .ok (emptyAuthorizationHeader, false) := by
        unfold processAuthParams
        rw [List.foldlM_cons, applyAuthParam_unknown _ (k, v) hk]
        simp [bind, Except.bind, pure, Except.pure]
      have hnone : hawkc_parse_auth_header hawkSchemeBytes = none := by decide
      rw [show ([] ++ (k, v) :: ([] : List (List Nat × List Nat))) = [(k, v)] from rfl,
        parse_authorization_eq_proc _ [(k, v)] emptyAuthorizationHeader false hparse hprocKV]
      rw [if_neg (by simp [emptyAuthorizationHeader])]
      rw [show emitHeader hawkSchemeBytes ([] ++ ([] : List (List Nat × List Nat))) = hawkSchemeBytes from rfl]
      unfold hawkc_parse_authorization_header
      rw [hnone]
    · have hwf2 : ParamsWF (ps1 ++ ps2) := by
        intro kv hkv
        apply hwfAll kv
        rcases List.mem_append.mp hkv with hx | hx
        · exact List.mem_append.mpr (Or.inl hx)
        · exact List.mem_append.mpr (Or.inr (by simp [hx]))
      have hl := parse_auth_header_emit hawkSchemeBytes (ps1 ++ (k, v) :: ps2)
        (by decide) (by decide) (by simp) hwfAll
      have hr := parse_auth_header_emit hawkSchemeBytes (ps1 ++ ps2)
        (by decide) (by decide) hne hwf2
      rw [parse_authorization_eq_some _ _ _ hl, parse_authorization_eq_some _ _ _ hr,
        processAuthParams_insert_unknown k v hk ps1 ps2]

/-- Witness for claim C4: inserting the unknown parameter z="x" in
front of id="a" leaves parsing unchanged. -/
theorem claim_C4_witness :
    hawkc_parse_authorization_header
        (emitHeader hawkSchemeBytes ([] ++ ([122], [120]) :: [(keyId, [97])])) =
      hawkc_parse_authorization_header (emitHeader hawkSchemeBytes ([] ++ [(keyId, [97])])) :=
  claim_C4_required_and_unknown.2.2 [122] [120] [] [(keyId, [97])] (by decide) (by
    intro kv hkv
    fin_cases hkv <;> exact ⟨by decide, by decide, by decide⟩)

/-- Claim C8: for every context state (and any HMAC primitive honoring
the algorithm MAC length), the length returned by the calculate
functions equals exactly the number of bytes of the matching created
header, for both the authorization and the WWW-Authenticate paths. -/
theorem claim_C8_size_precomputation (ctx : HawkcContext) (now : Int)
    (hmacFn : List Nat → List Nat → List Nat)
    (hlen : ∀ key msg, (hmacFn key msg).length = hawkc_mac_bytes ctx.algorithm) :
    hawkc_calculate_authorization_header_length ctx now =
      (hawkc_create_authorization_header ctx now hmacFn).length ∧
    hawkc_calculate_www_authenticate_header_length ctx =
      (hawkc_create_www_authenticate_header ctx hmacFn).length :=
  ⟨create_authorization_header_exact ctx now hmacFn hlen,
    create_www_authenticate_header_exact ctx hmacFn hlen⟩

/-- Witness for claim C8 at a concrete context with the SHA-256 record
and a constant 32-byte HMAC primitive. -/
theorem claim_C8_witness :
    hawkc_calculate_authorization_header_length
        ⟨0, ⟨sha256Name⟩, [112], [71, 69, 84], [47], [104], [56, 48],
          emptyAuthorizationHeader,
          ⟨[105, 100, 49], [], [], [], 0, [], [], []⟩,
          ⟨1353832234, []⟩, [110, 49]⟩ 7 =
      (hawkc_create_authorization_header
        ⟨0, ⟨sha256Name⟩, [112], [71, 69, 84], [47], [104], [56, 48],
          emptyAuthorizationHeader,
          ⟨[105, 100, 49], [], [], [], 0, [], [], []⟩,
          ⟨1353832234, []⟩, [110, 49]⟩ 7 (fun _ _ => List.replicate 32 0)).length :=
  (claim_C8_size_precomputation
    ⟨0, ⟨sha256Name⟩, [112], [71, 69, 84], [47], [104], [56, 48],
      emptyAuthorizationHeader,
      ⟨[105, 100, 49], [], [], [], 0, [], [], []⟩,
      ⟨1353832234, []⟩, [110, 49]⟩ 7 (fun _ _ => List.replicate 32 0)
    (fun _ _ => rfl)).1

end Hawkc

